import Mathlib

/-!
Shallow embedding of `scripts/extract_sushi.py`: an OSM sushi－restaurant
extractor.  Python strings are modelled by `String` (lists of unicode
scalar values); `str.lower()` is modelled by ASCII case folding
(`Char.toLower`), which agrees with Python on the basic-latin range the
program's keywords live in; Python's substring test `a in b` is modelled
by contiguous-sublist containment on the character lists; tag
dictionaries are association lists looked up by key with default `""`
(the code always reads tags with `tags.get(k, "")`, and the one bare
`get`-chain treats a missing key and an empty value alike); float
coordinates are modelled by exact rationals.
-/

/-- Model of a Python tag dictionary: association list from key to value. -/
abbrev Tags := List (String × String)

/-- `tags.get(k, "")`: first binding of `k`, defaulting to the empty string. -/
def tagsGet (tags : Tags) (k : String) : String :=
  ((tags.find? (fun p => p.1 == k)).map Prod.snd).getD ""

/-- Model of Python `s.lower()` (ASCII case folding). -/
def strLower (s : String) : String := ⟨s.data.map Char.toLower⟩

/-- Model of Python `needle in hay`: contiguous substring containment. -/
def strContains (hay needle : String) : Bool := decide (needle.data <:+: hay.data)

/-- The keyword list of `is_sushi_shop` (`sushi_keywords` in the source). -/
def sushi_keywords : List String := ["寿司", "すし", "スシ", "鮨", "sushi"]

/-- `is_sushi_shop(tags)` from `extract_sushi.py`: four OR-ed conditions
over `amenity`, `shop`, `cuisine` (lower-cased) and `name` (lower-cased). -/
def is_sushi_shop (tags : Tags) : Bool :=
  let amenity := tagsGet tags "amenity"
  let shop := tagsGet tags "shop"
  let cuisine := strLower (tagsGet tags "cuisine")
  let name := tagsGet tags "name"
  let has_sushi_cuisine := strContains cuisine "sushi"
  let has_sushi_name := sushi_keywords.any (fun kw => strContains (strLower name) kw)
  if amenity == "restaurant" && has_sushi_cuisine then true
  else if amenity == "restaurant" && has_sushi_name then true
  else if shop == "seafood" && has_sushi_name then true
  else if amenity == "fast_food" && has_sushi_cuisine then true
  else false

/-- `PREFECTURE_MAP` from `extract_sushi.py`: canonical prefecture token to
accepted name variants. -/
def PREFECTURE_MAP : List (String × List String) := [
  ("tokyo", ["東京都", "東京", "Tokyo"]),
  ("osaka", ["大阪府", "大阪", "Osaka"]),
  ("kyoto", ["京都府", "京都", "Kyoto"]),
  ("hokkaido", ["北海道", "Hokkaido"]),
  ("kanagawa", ["神奈川県", "神奈川", "Kanagawa"]),
  ("aichi", ["愛知県", "愛知", "Aichi"]),
  ("fukuoka", ["福岡県", "福岡", "Fukuoka"]),
  ("hyogo", ["兵庫県", "兵庫", "Hyogo"]),
  ("saitama", ["埼玉県", "埼玉", "Saitama"]),
  ("chiba", ["千葉県", "千葉", "Chiba"]),
  ("shizuoka", ["静岡県", "静岡", "Shizuoka"]),
  ("hiroshima", ["広島県", "広島", "Hiroshima"]),
  ("miyagi", ["宮城県", "宮城", "Miyagi"]),
  ("niigata", ["新潟県", "新潟", "Niigata"]),
  ("nagano", ["長野県", "長野", "Nagano"]),
  ("okinawa", ["沖縄県", "沖縄", "Okinawa"]),
  ("ibaraki", ["茨城県", "茨城", "Ibaraki"]),
  ("tochigi", ["栃木県", "栃木", "Tochigi"]),
  ("gunma", ["群馬県", "群馬", "Gunma"]),
  ("nara", ["奈良県", "奈良", "Nara"]),
  ("mie", ["三重県", "三重", "Mie"]),
  ("gifu", ["岐阜県", "岐阜", "Gifu"]),
  ("okayama", ["岡山県", "岡山", "Okayama"]),
  ("kumamoto", ["熊本県", "熊本", "Kumamoto"]),
  ("kagoshima", ["鹿児島県", "鹿児島", "Kagoshima"]),
  ("yamaguchi", ["山口県", "山口", "Yamaguchi"]),
  ("nagasaki", ["長崎県", "長崎", "Nagasaki"]),
  ("ehime", ["愛媛県", "愛媛", "Ehime"]),
  ("aomori", ["青森県", "青森", "Aomori"]),
  ("iwate", ["岩手県", "岩手", "Iwate"]),
  ("yamagata", ["山形県", "山形", "Yamagata"]),
  ("fukushima", ["福島県", "福島", "Fukushima"]),
  ("akita", ["秋田県", "秋田", "Akita"]),
  ("toyama", ["富山県", "富山", "Toyama"]),
  ("ishikawa", ["石川県", "石川", "Ishikawa"]),
  ("fukui", ["福井県", "福井", "Fukui"]),
  ("yamanashi", ["山梨県", "山梨", "Yamanashi"]),
  ("wakayama", ["和歌山県", "和歌山", "Wakayama"]),
  ("tottori", ["鳥取県", "鳥取", "Tottori"]),
  ("shimane", ["島根県", "島根", "Shimane"]),
  ("tokushima", ["徳島県", "徳島", "Tokushima"]),
  ("kagawa", ["香川県", "香川", "Kagawa"]),
  ("kochi", ["高知県", "高知", "Kochi"]),
  ("saga", ["佐賀県", "佐賀", "Saga"]),
  ("oita", ["大分県", "大分", "Oita"]),
  ("miyazaki", ["宮崎県", "宮崎", "Miyazaki"])]

/-- `PREFECTURE_MAP.get(k)`: dictionary lookup as association-list search. -/
def mapLookup (m : List (String × List String)) (k : String) : Option (List String) :=
  (m.find? (fun p => p.1 == k)).map Prod.snd

/-- `matches_prefecture(tags, pref_filter)` from `extract_sushi.py`. -/
def matches_prefecture (tags : Tags) (pref_filter : Option String) : Bool :=
  match pref_filter with
  | none => true
  | some pf =>
    let pref_names := (mapLookup PREFECTURE_MAP (strLower pf)).getD [pf]
    let addr_pref := tagsGet tags "addr:prefecture"
    if pref_names.any (fun p => strContains addr_pref p) then true
    else
      let addr_full := tagsGet tags "addr:full"
      if pref_names.any (fun p => strContains addr_full p) then true
      else
        let addr_city := tagsGet tags "addr:city"
        if pref_names.any (fun p => strContains addr_city p) then true
        else false

/-- The property record built by `extract_properties` (a fixed-shape dict
in the source; the constant `"type"` markers of the surrounding GeoJSON
scaffolding carry no information and are not modelled). -/
structure Props where
  osm_id : String
  name : String
  name_reading : String
  amenity : String
  shop : String
  cuisine : String
  addr_prefecture : String
  addr_city : String
  addr_full : String
  source : String
deriving DecidableEq, Repr

/-- `extract_properties(osm_id, tags)` from `extract_sushi.py`.  The
`name_reading` chain `tags.get(a) or tags.get(b) or ... or ""` picks the
first value that is present and non-empty (Python treats `None` and `""`
alike here, so the default-`""` lookup is faithful). -/
def extract_properties (osm_id : String) (tags : Tags) : Props :=
  let name_reading :=
    if tagsGet tags "name:ja-Hira" ≠ "" then tagsGet tags "name:ja-Hira"
    else if tagsGet tags "name:ja_kana" ≠ "" then tagsGet tags "name:ja_kana"
    else if tagsGet tags "name:ja_rm" ≠ "" then tagsGet tags "name:ja_rm"
    else if tagsGet tags "name:ja" ≠ "" then tagsGet tags "name:ja"
    else ""
  { osm_id := osm_id
    name := tagsGet tags "name"
    name_reading := name_reading
    amenity := tagsGet tags "amenity"
    shop := tagsGet tags "shop"
    cuisine := tagsGet tags "cuisine"
    addr_prefecture := tagsGet tags "addr:prefecture"
    addr_city := tagsGet tags "addr:city"
    addr_full := tagsGet tags "addr:full"
    source := "OSM" }

/-- A GeoJSON point Feature: geometry (longitude, latitude) and properties. -/
structure Feature where
  lon : ℚ
  lat : ℚ
  props : Props
deriving DecidableEq, Repr

/-- The coordinate index built by the first pass (`NodeCollector.node_coords`):
node id to (longitude, latitude). -/
abbrev CoordIndex := List (Int × (ℚ × ℚ))

/-- `ref in self.node_coords` followed by `self.node_coords[ref]`. -/
def coordLookup (idx : CoordIndex) (r : Int) : Option (ℚ × ℚ) :=
  (idx.find? (fun e => e.1 == r)).map Prod.snd

/-- `SushiExtractor.node`: append a Feature for a valid-location node that
passes the classifier and the locality filter. -/
def nodeHandler (pf : Option String) (nid : Int) (valid : Bool) (lon lat : ℚ)
    (tags : Tags) (features : List Feature) : List Feature :=
  if !valid then features
  else if !is_sushi_shop tags then features
  else if !matches_prefecture tags pf then features
  else features ++ [⟨lon, lat, extract_properties ("node/" ++ toString nid) tags⟩]

/-- A relation member: `(type, ref)`; only members with type `'n'` resolve. -/
abbrev Member := Char × Int

/-- The way members that resolve through the coordinate index, in order
(`coords` in `SushiExtractor.way`). -/
def wayResolved (idx : CoordIndex) (refs : List Int) : List (ℚ × ℚ) :=
  refs.filterMap (coordLookup idx)

/-- The node-typed relation members that resolve through the index, in order
(`coords` in `SushiExtractor.relation`). -/
def relationResolved (idx : CoordIndex) (members : List Member) : List (ℚ × ℚ) :=
  members.filterMap (fun m => if m.1 == 'n' then coordLookup idx m.2 else none)

/-- `SushiExtractor.way`: classify, filter, resolve member nodes through the
coordinate index, and append a Feature at the unweighted centroid (or none
when no member resolves). -/
def wayHandler (idx : CoordIndex) (pf : Option String) (wid : Int) (refs : List Int)
    (tags : Tags) (features : List Feature) : List Feature :=
  if !is_sushi_shop tags then features
  else if !matches_prefecture tags pf then features
  else if (wayResolved idx refs).isEmpty then features
  else
    features ++
      [⟨((wayResolved idx refs).map Prod.fst).sum / ((wayResolved idx refs).length : ℚ),
        ((wayResolved idx refs).map Prod.snd).sum / ((wayResolved idx refs).length : ℚ),
        extract_properties ("way/" ++ toString wid) tags⟩]

/-- `SushiExtractor.relation`: like `way`, but only node-typed members are
looked up in the coordinate index. -/
def relationHandler (idx : CoordIndex) (pf : Option String) (rid : Int)
    (members : List Member) (tags : Tags) (features : List Feature) : List Feature :=
  if !is_sushi_shop tags then features
  else if !matches_prefecture tags pf then features
  else if (relationResolved idx members).isEmpty then features
  else
    features ++
      [⟨((relationResolved idx members).map Prod.fst).sum /
          ((relationResolved idx members).length : ℚ),
        ((relationResolved idx members).map Prod.snd).sum /
          ((relationResolved idx members).length : ℚ),
        extract_properties ("relation/" ++ toString rid) tags⟩]

/-- A map entity of the second pass: node, way or relation. -/
inductive Entity where
  | node (nid : Int) (valid : Bool) (lon lat : ℚ) (tags : Tags)
  | way (wid : Int) (refs : List Int) (tags : Tags)
  | relation (rid : Int) (members : List Member) (tags : Tags)

/-- The tag set of an entity. -/
def Entity.tags : Entity → Tags
  | .node _ _ _ _ t => t
  | .way _ _ t => t
  | .relation _ _ t => t

/-- One step of the extraction pass: dispatch an entity to its handler. -/
def processEntity (idx : CoordIndex) (pf : Option String) (e : Entity)
    (features : List Feature) : List Feature :=
  match e with
  | .node nid valid lon lat tags => nodeHandler pf nid valid lon lat tags features
  | .way wid refs tags => wayHandler idx pf wid refs tags features
  | .relation rid members tags => relationHandler idx pf rid members tags features

/-- `round(x, 5)`: rounding to 5 decimal places, on exact rationals. -/
def round5 (q : ℚ) : ℚ := (⌊q * 100000 + 1 / 2⌋ : ℚ) / 100000

/-- The deduplication key of a Feature: rounded coordinates plus exact name. -/
def featureKey (f : Feature) : ℚ × ℚ × String :=
  (round5 f.lon, round5 f.lat, f.props.name)

/-- The loop body of `deduplicate_features`: keep a feature iff its key has
not been seen, recording seen keys. -/
def dedupLoop (seen : List (ℚ × ℚ × String)) : List Feature → List Feature
  | [] => []
  | f :: rest =>
    if featureKey f ∈ seen then dedupLoop seen rest
    else f :: dedupLoop (featureKey f :: seen) rest

/-- `deduplicate_features(features)` from `extract_sushi.py`. -/
def deduplicate_features (features : List Feature) : List Feature :=
  dedupLoop [] features

/-! ### Spec-side formulations used by the claims -/

/-- The non-latin sushi keywords of the spec (matched without case folding). -/
def script_keywords : List String := ["寿司", "すし", "スシ", "鮨"]

/-- Spec wording of "the name contains a sushi keyword": one of the script
keywords occurs as-is, or the latin keyword `"sushi"` occurs case-insensitively. -/
def specNameHasSushi (name : String) : Prop :=
  (∃ kw ∈ script_keywords, kw.data <:+: name.data) ∨ "sushi".data <:+: (strLower name).data

/-- Spec wording of "the cuisine value, case-insensitively, contains `sushi`". -/
def specCuisineHasSushi (cuisine : String) : Prop :=
  "sushi".data <:+: (strLower cuisine).data

/-- Spec wording of the Deduplicator: keep each feature, dropping every later
feature whose key equals a key already kept (first occurrence survives). -/
def specFirstOccurrences : List Feature → List Feature
  | [] => []
  | f :: rest =>
    f :: specFirstOccurrences (rest.filter (fun g => decide (featureKey g ≠ featureKey f)))
termination_by l => l.length
decreasing_by
  simp only [List.length_cons]
  exact Nat.lt_succ_of_le (List.length_filter_le _ _)

/-- Spec notion of resolvable geometry: a valid own location for a node, at
least one index-resolvable member for a way or relation. -/
def hasResolvableGeometry (idx : CoordIndex) : Entity → Bool
  | .node _ valid _ _ _ => valid
  | .way _ refs _ => !(wayResolved idx refs).isEmpty
  | .relation _ members _ => !(relationResolved idx members).isEmpty

/-- The accepted name variants for a locality-filter token: the table entry
for the lower-cased token, else the raw token alone. -/
def accepted_variants (tok : String) : List String :=
  (mapLookup PREFECTURE_MAP (strLower tok)).getD [tok]

/-- First non-empty string of a list, else the empty string. -/
def firstNonEmpty : List String → String
  | [] => ""
  | s :: rest => if s = "" then firstNonEmpty rest else s

/-- Spec wording of the reading name: first non-empty value among the four
candidate tags in their fixed priority order. -/
def specReading (tags : Tags) : String :=
  firstNonEmpty [tagsGet tags "name:ja-Hira", tagsGet tags "name:ja_kana",
    tagsGet tags "name:ja_rm", tagsGet tags "name:ja"]

instance (name : String) : Decidable (specNameHasSushi name) := by
  unfold specNameHasSushi
  infer_instance

instance (cuisine : String) : Decidable (specCuisineHasSushi cuisine) := by
  unfold specCuisineHasSushi
  infer_instance

/-! ### Character-level facts about ASCII case folding -/

/-- `Char.ofNat` of a valid codepoint has that codepoint. -/
theorem char_toNat_ofNat (n : Nat) (h : n.isValidChar) : (Char.ofNat n).toNat = n := by
  simp [Char.ofNat, dif_pos h, Char.ofNatAux, Char.toNat, UInt32.toNat]

/-- Characters are determined by their codepoint. -/
theorem char_toNat_inj {a b : Char} (h : a.toNat = b.toNat) : a = b :=
  Char.ext (UInt32.toNat.inj h)

/-- Defining equation of `Char.toLower`. -/
theorem toLower_def (c : Char) :
    Char.toLower c =
      if c.toNat ≥ 65 ∧ c.toNat ≤ 90 then Char.ofNat (c.toNat + 32) else c := rfl

/-- Case folding is invisible to characters outside the basic-latin letters:
for a target codepoint above `z`, folding neither creates nor destroys it. -/
theorem toLower_eq_iff_of_big {c k : Char} (hk : 122 < k.toNat) :
    Char.toLower c = k ↔ c = k := by
  rw [toLower_def]
  by_cases h : c.toNat ≥ 65 ∧ c.toNat ≤ 90
  · rw [if_pos h]
    have hv : (c.toNat + 32).isValidChar := Or.inl (by omega)
    constructor
    · intro he
      have h2 := congrArg Char.toNat he
      rw [char_toNat_ofNat _ hv] at h2
      omega
    · intro he
      subst he
      omega
  · rw [if_neg h]

/-- ASCII case folding is idempotent. -/
theorem toLower_toLower (c : Char) : Char.toLower (Char.toLower c) = Char.toLower c := by
  rw [toLower_def c]
  by_cases h : c.toNat ≥ 65 ∧ c.toNat ≤ 90
  · rw [if_pos h]
    have hv : (c.toNat + 32).isValidChar := Or.inl (by omega)
    rw [toLower_def, char_toNat_ofNat _ hv, if_neg (by omega)]
  · rw [if_neg h, toLower_def, if_neg h]

/-- A keyword of non-latin characters is a prefix of a folded string iff it is
a prefix of the original. -/
theorem prefix_map_toLower (ks : List Char) (hk : ∀ k ∈ ks, 122 < k.toNat) :
    ∀ l : List Char, ks <+: l.map Char.toLower ↔ ks <+: l := by
  induction ks with
  | nil => intro l; simp
  | cons k ks ih =>
    intro l
    cases l with
    | nil => simp
    | cons c l =>
      simp only [List.map_cons, List.cons_prefix_cons]
      constructor
      · rintro ⟨h1, h2⟩
        exact ⟨((toLower_eq_iff_of_big (hk k (by simp))).mp h1.symm).symm,
          (ih (fun x hx => hk x (by simp [hx])) l).mp h2⟩
      · rintro ⟨h1, h2⟩
        exact ⟨((toLower_eq_iff_of_big (hk k (by simp))).mpr h1.symm).symm,
          (ih (fun x hx => hk x (by simp [hx])) l).mpr h2⟩

/-- A keyword of non-latin characters is a substring of a folded string iff it
is a substring of the original. -/
theorem infix_map_toLower (ks : List Char) (hk : ∀ k ∈ ks, 122 < k.toNat) :
    ∀ l : List Char, ks <:+: l.map Char.toLower ↔ ks <:+: l := by
  intro l
  induction l with
  | nil => simp
  | cons c l ih =>
    simp only [List.map_cons, List.infix_cons_iff]
    rw [ih]
    have h := prefix_map_toLower ks hk (c :: l)
    simp only [List.map_cons] at h
    rw [h]

/-- `infix_map_toLower` phrased through `strLower`. -/
theorem infix_strLower (ks : List Char) (hk : ∀ k ∈ ks, 122 < k.toNat) (s : String) :
    ks <:+: (strLower s).data ↔ ks <:+: s.data :=
  infix_map_toLower ks hk s.data

/-! ### Spec-side formulations of the classifier conditions -/

/-- The code's keyword scan over the lower-cased name coincides with the
spec's reading (script keywords as-is, latin keyword case-insensitively). -/
theorem any_keyword_iff (name : String) :
    (sushi_keywords.any fun kw => strContains (strLower name) kw) = true ↔
      specNameHasSushi name := by
  simp only [sushi_keywords, List.any_cons, List.any_nil, Bool.or_eq_true, Bool.or_false,
    strContains, decide_eq_true_eq]
  rw [infix_strLower "寿司".data (by decide) name, infix_strLower "すし".data (by decide) name,
    infix_strLower "スシ".data (by decide) name, infix_strLower "鮨".data (by decide) name]
  simp only [specNameHasSushi, script_keywords, List.mem_cons, List.not_mem_nil, or_false,
    exists_eq_or_imp, exists_eq_left]
  tauto

/-- The classifier is the disjunction of its four documented conditions. -/
theorem is_sushi_shop_iff (tags : Tags) :
    is_sushi_shop tags = true ↔
      ((tagsGet tags "amenity" = "restaurant" ∧ specCuisineHasSushi (tagsGet tags "cuisine")) ∨
       (tagsGet tags "amenity" = "restaurant" ∧ specNameHasSushi (tagsGet tags "name")) ∨
       (tagsGet tags "shop" = "seafood" ∧ specNameHasSushi (tagsGet tags "name")) ∨
       (tagsGet tags "amenity" = "fast_food" ∧ specCuisineHasSushi (tagsGet tags "cuisine"))) := by
  unfold is_sushi_shop
  have hn := any_keyword_iff (tagsGet tags "name")
  simp only [specCuisineHasSushi]
  split_ifs with h1 h2 h3 h4 <;>
    simp_all [Bool.and_eq_true, beq_iff_eq, strContains, decide_eq_true_eq]

/-! ### Deduplication: spec-side formulation and lemmas -/

/-- The imperative seen-set loop computes the first-occurrence sublist of the
features whose key is not yet seen. -/
theorem dedupLoop_eq_spec (fs : List Feature) :
    ∀ seen, dedupLoop seen fs =
      specFirstOccurrences (fs.filter (fun f => decide (featureKey f ∉ seen))) := by
  induction fs with
  | nil => intro seen; simp [dedupLoop, specFirstOccurrences]
  | cons f rest ih =>
    intro seen
    by_cases hk : featureKey f ∈ seen
    · rw [dedupLoop, if_pos hk, List.filter_cons_of_neg (by simp [hk]), ih]
    · rw [dedupLoop, if_neg hk, List.filter_cons_of_pos (by simp [hk]),
        specFirstOccurrences, ih (featureKey f :: seen)]
      congr 1
      rw [List.filter_filter]
      congr 1
      apply List.filter_congr
      intro g _
      rw [Bool.eq_iff_iff]
      simp only [List.mem_cons, Bool.and_eq_true, decide_eq_true_eq, not_or]

/-- The loop output is a sublist of its input (order preserved, nothing edited). -/
theorem dedupLoop_sublist (seen : List (ℚ × ℚ × String)) (fs : List Feature) :
    List.Sublist (dedupLoop seen fs) fs := by
  induction fs generalizing seen with
  | nil => simp [dedupLoop]
  | cons f rest ih =>
    rw [dedupLoop]
    by_cases hk : featureKey f ∈ seen
    · rw [if_pos hk]; exact (ih seen).cons f
    · rw [if_neg hk]; exact (ih (featureKey f :: seen)).cons₂ f

/-- Keys surviving the loop are pairwise distinct and disjoint from `seen`. -/
theorem dedupLoop_nodup (fs : List Feature) :
    ∀ seen, ((dedupLoop seen fs).map featureKey).Nodup ∧
      ∀ f ∈ dedupLoop seen fs, featureKey f ∉ seen := by
  induction fs with
  | nil => intro seen; simp [dedupLoop]
  | cons f rest ih =>
    intro seen
    rw [dedupLoop]
    by_cases hk : featureKey f ∈ seen
    · rw [if_pos hk]; exact ih seen
    · rw [if_neg hk]
      obtain ⟨h1, h2⟩ := ih (featureKey f :: seen)
      refine ⟨?_, ?_⟩
      · simp only [List.map_cons, List.nodup_cons]
        refine ⟨?_, h1⟩
        intro hmem
        obtain ⟨g, hg, hgk⟩ := List.mem_map.mp hmem
        exact (h2 g hg) (by simp [hgk])
      · intro g hg
        rcases List.mem_cons.mp hg with h | h
        · subst h; exact hk
        · intro hs; exact (h2 g h) (by simp [hs])

/-- Every input key either was already seen or survives in the loop output. -/
theorem dedupLoop_covers (fs : List Feature) :
    ∀ seen, ∀ f ∈ fs, featureKey f ∈ seen ∨
      featureKey f ∈ (dedupLoop seen fs).map featureKey := by
  induction fs with
  | nil => intro seen f hf; simp at hf
  | cons f rest ih =>
    intro seen g hg
    rw [dedupLoop]
    by_cases hk : featureKey f ∈ seen
    · rw [if_pos hk]
      rcases List.mem_cons.mp hg with h | h
      · subst h; exact Or.inl hk
      · exact ih seen g h
    · rw [if_neg hk]
      rcases List.mem_cons.mp hg with h | h
      · subst h; simp
      · rcases ih (featureKey f :: seen) g h with hs | hs
        · rcases List.mem_cons.mp hs with h2 | h2
          · exact Or.inr (by simp [h2])
          · exact Or.inl h2
        · exact Or.inr (by simp [hs])

/-- On a list whose keys are already distinct and unseen, the loop is the
identity. -/
theorem dedupLoop_id (fs : List Feature) :
    ∀ seen, ((fs.map featureKey).Nodup) → (∀ f ∈ fs, featureKey f ∉ seen) →
      dedupLoop seen fs = fs := by
  induction fs with
  | nil => intro seen _ _; rfl
  | cons f rest ih =>
    intro seen hnd hns
    rw [dedupLoop, if_neg (hns f (by simp))]
    congr 1
    apply ih
    · simp only [List.map_cons, List.nodup_cons] at hnd
      exact hnd.2
    · intro g hg
      simp only [List.map_cons, List.nodup_cons] at hnd
      intro hs
      rcases List.mem_cons.mp hs with h | h
      · exact hnd.1 (h ▸ List.mem_map_of_mem featureKey hg)
      · exact (hns g (by simp [hg])) h

/-! ### Geometry resolution and locality filter: spec-side notions -/

/-! ### Locality filter lemmas -/

/-- ASCII case folding of strings is idempotent. -/
theorem strLower_idem (s : String) : strLower (strLower s) = strLower s := by
  unfold strLower
  congr 1
  rw [List.map_map]
  apply List.map_congr_left
  intro c _
  exact toLower_toLower c

/-- With a configured token, the filter accepts iff some accepted variant is a
substring of one of the three address tags. -/
theorem matches_prefecture_some_iff (tags : Tags) (pf : String) :
    matches_prefecture tags (some pf) = true ↔
      ∃ v ∈ accepted_variants pf,
        (v.data <:+: (tagsGet tags "addr:prefecture").data ∨
         v.data <:+: (tagsGet tags "addr:full").data ∨
         v.data <:+: (tagsGet tags "addr:city").data) := by
  have hb : matches_prefecture tags (some pf) =
      ((accepted_variants pf).any (fun p => strContains (tagsGet tags "addr:prefecture") p) ||
       (accepted_variants pf).any (fun p => strContains (tagsGet tags "addr:full") p) ||
       (accepted_variants pf).any (fun p => strContains (tagsGet tags "addr:city") p)) := by
    simp only [matches_prefecture, accepted_variants]
    split_ifs with h1 h2 h3 <;> simp_all
  rw [hb]
  simp only [Bool.or_eq_true, List.any_eq_true, strContains, decide_eq_true_eq]
  constructor
  · rintro ((⟨v, hv, hp⟩ | ⟨v, hv, hp⟩) | ⟨v, hv, hp⟩)
    · exact ⟨v, hv, Or.inl hp⟩
    · exact ⟨v, hv, Or.inr (Or.inl hp)⟩
    · exact ⟨v, hv, Or.inr (Or.inr hp)⟩
  · rintro ⟨v, hv, hp | hp | hp⟩
    · exact Or.inl (Or.inl ⟨v, hv, hp⟩)
    · exact Or.inl (Or.inr ⟨v, hv, hp⟩)
    · exact Or.inr ⟨v, hv, hp⟩

/-- The filter result depends on the token only through its variant list. -/
theorem matches_prefecture_congr (tags : Tags) {p q : String}
    (h : accepted_variants p = accepted_variants q) :
    matches_prefecture tags (some p) = matches_prefecture tags (some q) := by
  unfold accepted_variants at h
  simp only [matches_prefecture]
  rw [h]

/-- When the lower-cased token is a table key, lower-casing the token first
does not change its variant list. -/
theorem accepted_variants_lower (tok : String)
    (h : (mapLookup PREFECTURE_MAP (strLower tok)).isSome = true) :
    accepted_variants tok = accepted_variants (strLower tok) := by
  unfold accepted_variants
  rw [strLower_idem]
  obtain ⟨l, hl⟩ := Option.isSome_iff_exists.mp h
  rw [hl]
  rfl

/-! ### Decidability instances for the spec-side predicates -/

/-! ### The claims -/

/-- C1: `is_sushi_shop(tags)` is true iff one of the four conditions holds:
restaurant with sushi cuisine, restaurant with sushi-keyword name, seafood
shop with sushi-keyword name, fast food with sushi cuisine; and in
particular the empty tag mapping and a bare `amenity=restaurant` mapping
are rejected. -/
theorem sushi_classifier_four_conditions :
    (∀ tags : Tags, is_sushi_shop tags = true ↔
      ((tagsGet tags "amenity" = "restaurant" ∧ specCuisineHasSushi (tagsGet tags "cuisine")) ∨
       (tagsGet tags "amenity" = "restaurant" ∧ specNameHasSushi (tagsGet tags "name")) ∨
       (tagsGet tags "shop" = "seafood" ∧ specNameHasSushi (tagsGet tags "name")) ∨
       (tagsGet tags "amenity" = "fast_food" ∧ specCuisineHasSushi (tagsGet tags "cuisine")))) ∧
    is_sushi_shop [] = false ∧
    is_sushi_shop [("amenity", "restaurant")] = false :=
  ⟨is_sushi_shop_iff, by decide, by decide⟩

/-- C4: a restaurant whose name contains a script keyword as-is, or the latin
keyword `sushi` case-insensitively, is classified as a sushi shop. -/
theorem restaurant_name_keyword_classified (tags : Tags)
    (hr : tagsGet tags "amenity" = "restaurant")
    (hname : specNameHasSushi (tagsGet tags "name")) :
    is_sushi_shop tags = true :=
  (is_sushi_shop_iff tags).mpr (Or.inr (Or.inl ⟨hr, hname⟩))

/-- C4 witness: an upper-case latin name and a kanji name both classify. -/
theorem restaurant_name_keyword_classified_witness :
    tagsGet [("amenity", "restaurant"), ("name", "THE SUSHI BAR")] "amenity" = "restaurant" ∧
    specNameHasSushi (tagsGet [("amenity", "restaurant"), ("name", "THE SUSHI BAR")] "name") ∧
    is_sushi_shop [("amenity", "restaurant"), ("name", "THE SUSHI BAR")] = true ∧
    is_sushi_shop [("amenity", "restaurant"), ("name", "まつ鮨")] = true :=
  ⟨by decide, by decide,
    restaurant_name_keyword_classified _ (by decide) (by decide),
    restaurant_name_keyword_classified _ (by decide) (by decide)⟩

/-- C5: the locality filter always accepts when unconfigured; with a token it
accepts iff one of the three address tags contains one of the accepted
variants (table entry of the token, or the raw token when unknown, as for
`"foo"`). -/
theorem locality_filter_characterization :
    (∀ tags : Tags, matches_prefecture tags none = true) ∧
    (∀ (tags : Tags) (pf : String), matches_prefecture tags (some pf) = true ↔
      ∃ v ∈ accepted_variants pf,
        (v.data <:+: (tagsGet tags "addr:prefecture").data ∨
         v.data <:+: (tagsGet tags "addr:full").data ∨
         v.data <:+: (tagsGet tags "addr:city").data)) ∧
    accepted_variants "foo" = ["foo"] :=
  ⟨fun _ => rfl, matches_prefecture_some_iff, by decide⟩

/-- C10: the filter token is lower-cased before the table lookup, so a token
whose lower-cased form is a table key behaves exactly like its lower-cased
form. -/
theorem locality_token_lowercased (tags : Tags) (tok : String)
    (h : (mapLookup PREFECTURE_MAP (strLower tok)).isSome = true) :
    matches_prefecture tags (some tok) = matches_prefecture tags (some (strLower tok)) :=
  matches_prefecture_congr tags (accepted_variants_lower tok h)

/-- C10 witness: `"TOKYO"` filters exactly like `"tokyo"`. -/
theorem locality_token_lowercased_witness :
    (mapLookup PREFECTURE_MAP (strLower "TOKYO")).isSome = true ∧
    matches_prefecture [("addr:city", "東京")] (some "TOKYO") =
      matches_prefecture [("addr:city", "東京")] (some "tokyo") := by
  refine ⟨by decide, ?_⟩
  have h := locality_token_lowercased [("addr:city", "東京")] "TOKYO" (by decide)
  rw [show strLower "TOKYO" = "tokyo" from by decide] at h
  exact h

/-- C8: the reading name is the first non-empty value among `name:ja-Hira`,
`name:ja_kana`, `name:ja_rm`, `name:ja` in that order (empty when none), so
a kana-reading tag wins over a romanized one. -/
theorem reading_name_priority :
    (∀ (oid : String) (tags : Tags),
      (extract_properties oid tags).name_reading = specReading tags) ∧
    (extract_properties "node/1"
      [("name:ja_kana", "すしたろう"), ("name:ja_rm", "sushitaro")]).name_reading =
      "すしたろう" := by
  constructor
  · intro oid tags
    simp only [extract_properties, specReading, firstNonEmpty]
    split_ifs <;> simp_all
  · decide

/-- C3: deduplication keeps exactly the first occurrence of each key
(rounded longitude, rounded latitude, exact name), in first-occurrence
order: it equals the spec's first-occurrence filter, is a sublist of its
input, its surviving keys are pairwise distinct, and every input key
survives. -/
theorem dedup_keeps_first_occurrences (fs : List Feature) :
    deduplicate_features fs = specFirstOccurrences fs ∧
    List.Sublist (deduplicate_features fs) fs ∧
    ((deduplicate_features fs).map featureKey).Nodup ∧
    ∀ f ∈ fs, featureKey f ∈ (deduplicate_features fs).map featureKey := by
  refine ⟨?_, dedupLoop_sublist [] fs, (dedupLoop_nodup fs []).1, ?_⟩
  · unfold deduplicate_features
    rw [dedupLoop_eq_spec]
    congr 1
    apply List.filter_eq_self.mpr
    intro f _
    simp
  · intro f hf
    rcases dedupLoop_covers fs [] f hf with h | h
    · exact absurd h (List.not_mem_nil _)
    · exact h

/-- C7: deduplication is idempotent. -/
theorem dedup_idempotent (fs : List Feature) :
    deduplicate_features (deduplicate_features fs) = deduplicate_features fs := by
  unfold deduplicate_features
  apply dedupLoop_id
  · exact (dedupLoop_nodup fs []).1
  · intro f _
    exact List.not_mem_nil _

/-- C9: deduplication never modifies a Feature: the output is a sublist of
the input, so every surviving Feature is an input Feature unchanged
(coordinates at full precision, all properties intact); rounding touches
only the comparison key. -/
theorem dedup_preserves_features (fs : List Feature) :
    List.Sublist (deduplicate_features fs) fs ∧
    ∀ f ∈ deduplicate_features fs, f ∈ fs :=
  ⟨dedupLoop_sublist [] fs, fun _ hf => (dedupLoop_sublist [] fs).subset hf⟩

/-- C6: a Feature is appended only when all three gates pass — classifier,
locality filter and resolvable geometry; otherwise the feature list is
returned untouched, and no Feature with unresolved geometry is ever built. -/
theorem feature_gates_invariant (idx : CoordIndex) (pf : Option String)
    (e : Entity) (fs : List Feature) :
    processEntity idx pf e fs = fs ∨
    ∃ f, processEntity idx pf e fs = fs ++ [f] ∧
      is_sushi_shop e.tags = true ∧ matches_prefecture e.tags pf = true ∧
      hasResolvableGeometry idx e = true := by
  cases e with
  | node nid valid lon lat tags =>
    by_cases hv : valid = true
    · by_cases hs : is_sushi_shop tags = true
      · by_cases hp : matches_prefecture tags pf = true
        · right
          refine ⟨⟨lon, lat, extract_properties ("node/" ++ toString nid) tags⟩, ?_, hs, hp, hv⟩
          rw [processEntity, nodeHandler, if_neg (by simp [hv]), if_neg (by simp [hs]),
            if_neg (by simp [hp])]
        · left
          rw [processEntity, nodeHandler, if_neg (by simp [hv]), if_neg (by simp [hs]),
            if_pos (by simp [hp])]
      · left
        rw [processEntity, nodeHandler, if_neg (by simp [hv]), if_pos (by simp [hs])]
    · left
      rw [processEntity, nodeHandler, if_pos (by simp [hv])]
  | way wid refs tags =>
    by_cases hs : is_sushi_shop tags = true
    · by_cases hp : matches_prefecture tags pf = true
      · by_cases hc : (wayResolved idx refs).isEmpty = true
        · left
          rw [processEntity, wayHandler, if_neg (by simp [hs]), if_neg (by simp [hp]),
            if_pos hc]
        · right
          refine ⟨⟨((wayResolved idx refs).map Prod.fst).sum / ((wayResolved idx refs).length : ℚ),
            ((wayResolved idx refs).map Prod.snd).sum / ((wayResolved idx refs).length : ℚ),
            extract_properties ("way/" ++ toString wid) tags⟩, ?_, hs, hp, ?_⟩
          · rw [processEntity, wayHandler, if_neg (by simp [hs]), if_neg (by simp [hp]),
              if_neg hc]
          · simp [hasResolvableGeometry, hc]
      · left
        rw [processEntity, wayHandler, if_neg (by simp [hs]), if_pos (by simp [hp])]
    · left
      rw [processEntity, wayHandler, if_pos (by simp [hs])]
  | relation rid members tags =>
    by_cases hs : is_sushi_shop tags = true
    · by_cases hp : matches_prefecture tags pf = true
      · by_cases hc : (relationResolved idx members).isEmpty = true
        · left
          rw [processEntity, relationHandler, if_neg (by simp [hs]), if_neg (by simp [hp]),
            if_pos hc]
        · right
          refine ⟨⟨((relationResolved idx members).map Prod.fst).sum /
              ((relationResolved idx members).length : ℚ),
            ((relationResolved idx members).map Prod.snd).sum /
              ((relationResolved idx members).length : ℚ),
            extract_properties ("relation/" ++ toString rid) tags⟩, ?_, hs, hp, ?_⟩
          · rw [processEntity, relationHandler, if_neg (by simp [hs]), if_neg (by simp [hp]),
              if_neg hc]
          · simp [hasResolvableGeometry, hc]
      · left
        rw [processEntity, relationHandler, if_neg (by simp [hs]), if_pos (by simp [hp])]
    · left
      rw [processEntity, relationHandler, if_pos (by simp [hs])]

/-- C2: for a composite entity passing both gates, no Feature is emitted when
no member resolves; otherwise the emitted Feature's geometry is the
arithmetic mean of the resolved member longitudes and latitudes. -/
theorem composite_centroid_or_dropped (idx : CoordIndex) (pf : Option String)
    (wid rid : Int) (refs : List Int) (members : List Member) (tags : Tags)
    (fs : List Feature) (hshop : is_sushi_shop tags = true)
    (hpref : matches_prefecture tags pf = true) :
    (wayResolved idx refs = [] → wayHandler idx pf wid refs tags fs = fs) ∧
    (wayResolved idx refs ≠ [] →
      wayHandler idx pf wid refs tags fs = fs ++
        [⟨((wayResolved idx refs).map Prod.fst).sum / ((wayResolved idx refs).length : ℚ),
          ((wayResolved idx refs).map Prod.snd).sum / ((wayResolved idx refs).length : ℚ),
          extract_properties ("way/" ++ toString wid) tags⟩]) ∧
    (relationResolved idx members = [] → relationHandler idx pf rid members tags fs = fs) ∧
    (relationResolved idx members ≠ [] →
      relationHandler idx pf rid members tags fs = fs ++
        [⟨((relationResolved idx members).map Prod.fst).sum /
            ((relationResolved idx members).length : ℚ),
          ((relationResolved idx members).map Prod.snd).sum /
            ((relationResolved idx members).length : ℚ),
          extract_properties ("relation/" ++ toString rid) tags⟩]) := by
  refine ⟨?_, ?_, ?_, ?_⟩ <;> intro hc
  · rw [wayHandler, if_neg (by simp [hshop]), if_neg (by simp [hpref]),
      if_pos (by simp [hc])]
  · rw [wayHandler, if_neg (by simp [hshop]), if_neg (by simp [hpref]),
      if_neg (by simp [List.isEmpty_iff, hc])]
  · rw [relationHandler, if_neg (by simp [hshop]), if_neg (by simp [hpref]),
      if_pos (by simp [hc])]
  · rw [relationHandler, if_neg (by simp [hshop]), if_neg (by simp [hpref]),
      if_neg (by simp [List.isEmpty_iff, hc])]

/-- C2 witness: a way and a relation over resolved members `(0,0)` and
`(2,2)` (the relation also carrying an unresolvable way member) emit one
Feature at the centroid `(1,1)`. -/
theorem composite_centroid_or_dropped_witness :
    is_sushi_shop [("amenity", "restaurant"), ("cuisine", "sushi")] = true ∧
    matches_prefecture [("amenity", "restaurant"), ("cuisine", "sushi")] none = true ∧
    wayHandler [(1, ((0 : ℚ), (0 : ℚ))), (2, (2, 2))] none 7 [1, 2]
      [("amenity", "restaurant"), ("cuisine", "sushi")] [] =
      [⟨1, 1, extract_properties "way/7" [("amenity", "restaurant"), ("cuisine", "sushi")]⟩] ∧
    relationHandler [(1, ((0 : ℚ), (0 : ℚ))), (2, (2, 2))] none 9
      [('n', 1), ('n', 2), ('w', 3)]
      [("amenity", "restaurant"), ("cuisine", "sushi")] [] =
      [⟨1, 1, extract_properties "relation/9"
        [("amenity", "restaurant"), ("cuisine", "sushi")]⟩] := by
  have h := composite_centroid_or_dropped [(1, ((0 : ℚ), (0 : ℚ))), (2, (2, 2))] none 7 9
    [1, 2] [('n', 1), ('n', 2), ('w', 3)]
    [("amenity", "restaurant"), ("cuisine", "sushi")] [] (by decide) (by decide)
  have hw : wayResolved [(1, ((0 : ℚ), (0 : ℚ))), (2, (2, 2))] [1, 2] =
      [((0 : ℚ), (0 : ℚ)), (2, 2)] := by decide
  have hr : relationResolved [(1, ((0 : ℚ), (0 : ℚ))), (2, (2, 2))]
      [('n', 1), ('n', 2), ('w', 3)] = [((0 : ℚ), (0 : ℚ)), (2, 2)] := by decide
  refine ⟨by decide, by decide, ?_, ?_⟩
  · have h2 := h.2.1 (by rw [hw]; simp)
    rw [h2, hw]
    norm_num
    congr 1
  · have h2 := h.2.2.2 (by rw [hr]; simp)
    rw [h2, hr]
    norm_num
    congr 1
